import Mathlib

/-!
Verification development for the AI_JTBD taxonomy/pipeline engine.

The Python source is shallowly embedded as executable Lean definitions:

* `Regex section` — faithful character-level embeddings of the concrete
  regular-expression patterns used by the response parsers
  (`hierarchy_builder.parse_list` / `parse_roles` / `parse_jobs` and
  `mongo_manager.PromptBuilder._parse_list_response`), with Python
  `re.match` backtracking semantics specialised to each fixed pattern.
* `Scheduler section` — the taxonomy-mode expansion engine of
  `hierarchy_builder.HierarchyBuilder` (`build_hierarchy` resume path,
  `process_hierarchy`, `_process_node`, `_generate_and_process_children`,
  `_process_end_users`, `_generate_and_process_end_user_type`,
  `_process_jobs`), modelled as pure state-passing functions that return
  the updated subtree, the next fresh-id counter and an ordered event
  trace (gateway calls and MongoDB batch saves).
* `Pipeline section` — the pipeline-mode step traversal of
  `console_app.process_steps` and `app.process_job.process_steps`, with
  the downstream processor abstracted as a name-indexed table of
  child-producing handlers, plus `method_mapping.STEP_NAME_TO_METHOD` and
  `method_mapping.build_hierarchy_from_nodes`.
-/

/-! ## Python string primitives -/

/-- Python `\s` / `str.strip` whitespace class (ASCII range, which is all
the engine's inputs use). -/
def pyIsSpace (c : Char) : Bool :=
  c = ' ' || c = '\t' || c = '\n' || c = '\r' || c = '\x0b' || c = '\x0c'

/-- Python `\d` digit class (ASCII). -/
def pyIsDigit (c : Char) : Bool :=
  '0' ≤ c && c ≤ '9'

/-- Python `str.strip()`: drop leading and trailing whitespace. -/
def pyStrip (cs : List Char) : List Char :=
  ((cs.dropWhile pyIsSpace).reverse.dropWhile pyIsSpace).reverse

/-- Python `str.split('\n')`: always at least one piece, empty pieces kept. -/
def splitNl : List Char → List (List Char)
  | [] => [[]]
  | '\n' :: rest => [] :: splitNl rest
  | c :: rest =>
    match splitNl rest with
    | l :: ls => (c :: l) :: ls
    | [] => [[c]]

/-! ## Regex embeddings

Each pattern below is matched against one line produced by
`split('\n')`, so the subject contains no `'\n'`; the embeddings encode
Python `re.match` semantics (anchored at the start, `$` at end of
subject) for the concrete patterns, including greedy/lazy backtracking
where it can change the result. -/

/-- `\d+` followed by whatever remains.  `\d+` is greedy; since every
pattern continues with a non-digit (`\.`), maximal munch is exact.
Fails when there is no leading digit. -/
def dropDigits1 : List Char → Option (List Char)
  | [] => none
  | c :: rest => if pyIsDigit c then some (rest.dropWhile pyIsDigit) else none

/-- `\s*(.+)$` at the end of a pattern: greedy whitespace, then a
non-empty remainder captured by `(.+)`.  When the remainder is all
whitespace the engine backtracks the star one step so that `(.+)`
captures the final character. -/
def wsDotPlusEnd (r : List Char) : Option (List Char) :=
  let k := (r.takeWhile pyIsSpace).length
  if r.length = 0 then none
  else if k < r.length then some (r.drop k)
  else some (r.drop (r.length - 1))

/-- `\s+(.+)$` at the end of a pattern: at least one whitespace must be
consumed, then a non-empty capture; backtracking as in `wsDotPlusEnd`. -/
def wsPlusDotPlusEnd (r : List Char) : Option (List Char) :=
  let k := (r.takeWhile pyIsSpace).length
  if k = 0 then none
  else if k < r.length then some (r.drop k)
  else if 2 ≤ k then some (r.drop (r.length - 1))
  else none

/-- The lazy group `(.+?)` followed by a tail pattern: try the shortest
non-empty prefix first and extend one character at a time until the tail
matches the remainder; returns the captured prefix and the tail's
captures. -/
def lazyDotPlus (tail : List Char → Option α) : List Char → Option (List Char × α)
  | [] => none
  | c :: rest =>
    match tail rest with
    | some a => some ([c], a)
    | none =>
      match lazyDotPlus tail rest with
      | some (p, a) => some (c :: p, a)
      | none => none

/-- Tail of `hierarchy_builder.parse_list`'s pattern after the lazy name
group: `\*\*(?::\s*|)\s*(.+)$`.  The alternation prefers the
colon branch; if the colon branch leaves nothing for `(.+)` the engine
falls back to the empty branch, so the colon itself is then captured. -/
def listSepTail (r : List Char) : Option (List Char) :=
  match r with
  | '*' :: '*' :: r2 =>
    match r2 with
    | ':' :: r3 =>
      match wsDotPlusEnd r3 with
      | some g => some g
      | none => wsDotPlusEnd r2
    | _ => wsDotPlusEnd r2
  | _ => none

/-- `hierarchy_builder.parse_list` pattern
`^\d+\.\s*\*\*(.+?)\*\*(?::\s*|)\s*(.+)$`; returns the two raw captures. -/
def matchListPattern (cs : List Char) : Option (List Char × List Char) :=
  match dropDigits1 cs with
  | none => none
  | some rest =>
    match rest with
    | '.' :: r1 =>
      match r1.dropWhile pyIsSpace with
      | '*' :: '*' :: r3 => lazyDotPlus listSepTail r3
      | _ => none
    | _ => none

/-- Tail of the bold-name + dash pattern after the lazy name group:
`\*\*\s*-\s*(.+)$`. -/
def boldDashTail (r : List Char) : Option (List Char) :=
  match r with
  | '*' :: '*' :: r2 =>
    match r2.dropWhile pyIsSpace with
    | '-' :: r4 => wsDotPlusEnd r4
    | _ => none
  | _ => none

/-- `PromptBuilder._parse_list_response` primary pattern
`^\s*\d+\.\s*\*\*(.+?)\*\*\s*-\s*(.+)$` (leading whitespace allowed). -/
def matchBoldDash (cs : List Char) : Option (List Char × List Char) :=
  match dropDigits1 (cs.dropWhile pyIsSpace) with
  | none => none
  | some rest =>
    match rest with
    | '.' :: r1 =>
      match r1.dropWhile pyIsSpace with
      | '*' :: '*' :: r3 => lazyDotPlus boldDashTail r3
      | _ => none
    | _ => none

/-- Tail of the plain-name + dash pattern after the lazy name group:
`\s*-\s*(.+)$`.  The star before `-` cannot trade characters with the
dash, so maximal munch is exact. -/
def plainDashTail (r : List Char) : Option (List Char) :=
  match r.dropWhile pyIsSpace with
  | '-' :: r3 => wsDotPlusEnd r3
  | _ => none

/-- The greedy `\s*` directly before the lazy group of the plain-name
pattern can backtrack: the engine first consumes the maximal run, and on
failure hands whitespace characters back to the lazy group one at a
time.  `k` starts at the maximal whitespace run length. -/
def wsThenLazy (tail : List Char → Option α) (r : List Char) : Nat → Option (List Char × α)
  | 0 => lazyDotPlus tail r
  | k + 1 =>
    match lazyDotPlus tail (r.drop (k + 1)) with
    | some x => some x
    | none => wsThenLazy tail r k

/-- `PromptBuilder._parse_list_response` fallback pattern
`^\d+\.\s*(.+?)\s*-\s*(.+)$` (no leading whitespace allowed). -/
def matchPlainDash (cs : List Char) : Option (List Char × List Char) :=
  match dropDigits1 cs with
  | none => none
  | some rest =>
    match rest with
    | '.' :: r1 => wsThenLazy plainDashTail r1 (r1.takeWhile pyIsSpace).length
    | _ => none

/-- Tail of `hierarchy_builder.parse_roles`' pattern after the lazy name
group: `\*\*:\s+(.+)$`. -/
def rolesSepTail (r : List Char) : Option (List Char) :=
  match r with
  | '*' :: '*' :: ':' :: r3 => wsPlusDotPlusEnd r3
  | _ => none

/-- `hierarchy_builder.parse_roles` pattern
`^\d+\.\s+\*\*(.+?)\*\*:\s+(.+)$` (note the mandatory whitespace). -/
def matchRolesPattern (cs : List Char) : Option (List Char × List Char) :=
  match dropDigits1 cs with
  | none => none
  | some rest =>
    match rest with
    | '.' :: r1 =>
      match r1 with
      | c :: _ =>
        if pyIsSpace c then
          match r1.dropWhile pyIsSpace with
          | '*' :: '*' :: r3 => lazyDotPlus rolesSepTail r3
          | _ => none
        else none
      | [] => none
    | _ => none

/-- Tail of `hierarchy_builder.parse_jobs`' pattern after the lazy name
group: `\*\*\s+-\s+(.+)$`. -/
def jobsSepTail (r : List Char) : Option (List Char) :=
  match r with
  | '*' :: '*' :: r2 =>
    match r2 with
    | c :: _ =>
      if pyIsSpace c then
        match r2.dropWhile pyIsSpace with
        | '-' :: r4 => wsPlusDotPlusEnd r4
        | _ => none
      else none
    | [] => none
  | _ => none

/-- `hierarchy_builder.parse_jobs` pattern
`^\d+\.\s+\*\*(.+?)\*\*\s+-\s+(.+)$`. -/
def matchJobsPattern (cs : List Char) : Option (List Char × List Char) :=
  match dropDigits1 cs with
  | none => none
  | some rest =>
    match rest with
    | '.' :: r1 =>
      match r1 with
      | c :: _ =>
        if pyIsSpace c then
          match r1.dropWhile pyIsSpace with
          | '*' :: '*' :: r3 => lazyDotPlus jobsSepTail r3
          | _ => none
        else none
      | [] => none
    | _ => none

/-! ## Response parsers -/

/-- A parsed `name`/`description` record — the unit that becomes one
child node. -/
structure PRec where
  name : String
  description : String
deriving Repr, DecidableEq

/-- `HierarchyBuilder.parse_response` specialised by a line matcher:
split on newlines, keep the matching lines' stripped captures, drop (and
log) the rest. -/
def parseResponseWith (m : List Char → Option (List Char × List Char))
    (response : String) : List PRec :=
  (splitNl response.data).filterMap fun line =>
    (m line).map fun p => ⟨String.mk (pyStrip p.1), String.mk (pyStrip p.2)⟩

/-- `HierarchyBuilder.parse_list` (keys `name`, `description`). -/
def parse_list (response : String) : List PRec :=
  parseResponseWith matchListPattern response

/-- `HierarchyBuilder.parse_roles` (keys `role`, `description`; the
record field `name` stands for the `role` key). -/
def parse_roles (response : String) : List PRec :=
  parseResponseWith matchRolesPattern response

/-- `HierarchyBuilder.parse_jobs` (keys `job`, `description`; the record
field `name` stands for the `job` key). -/
def parse_jobs (response : String) : List PRec :=
  parseResponseWith matchJobsPattern response

/-- One iteration of `PromptBuilder._parse_list_response`'s loop: blank
lines are skipped, then the bold-name + dash pattern is tried, then the
plain-name + dash fallback; a line matching neither is skipped. -/
def parseLineResponse (line : List Char) : Option PRec :=
  if pyStrip line = [] then none
  else
    match matchBoldDash line with
    | some p => some ⟨String.mk (pyStrip p.1), String.mk (pyStrip p.2)⟩
    | none =>
      match matchPlainDash line with
      | some p => some ⟨String.mk (pyStrip p.1), String.mk (pyStrip p.2)⟩
      | none => none

/-- `PromptBuilder._parse_list_response`: strip the whole response,
split on newlines, parse each line best-effort. -/
def parseListResponse (response : String) : List PRec :=
  (splitNl (pyStrip response.data)).filterMap parseLineResponse


/-! ## Tree model

`anytree` nodes carry `name`, `description`, `type`, `processed` and a
`node_id` assigned from `ObjectId()`; fresh ids are modelled by a
counter threaded through the engine. -/

/-- The attributes of one hierarchy node. -/
structure NodeData where
  node_id : Nat
  name : String
  description : String
  tpe : String
  processed : Bool
deriving Repr, DecidableEq

/-- A node together with its ordered children (anytree appends a child
to its parent's `children` at creation). -/
inductive HTree where
  | node : NodeData → List HTree → HTree
deriving Repr

def HTree.data : HTree → NodeData
  | .node d _ => d

def HTree.children : HTree → List HTree
  | .node _ ks => ks

/-- Flip the node's own `processed` flag (the only mutation of node
attributes the engine performs). -/
def markProcessed : HTree → HTree
  | .node d ks => .node { d with processed := true } ks

/-- The flat document shape `_save_node_to_mongo` writes per node. -/
structure SavedDoc where
  node_id : Nat
  industry : String
  name : String
  description : String
  processed : Bool
  tpe : String
  parent_id : Option Nat
  children_ids : List Nat
deriving Repr, DecidableEq

/-- The document `_save_node_to_mongo` builds for one node; the parent
id comes from the node's `parent` back-reference and is passed in
explicitly here. -/
def docOf (industry : String) (pid : Option Nat) : HTree → SavedDoc
  | .node d ks =>
    ⟨d.node_id, industry, d.name, d.description, d.processed, d.tpe, pid,
      ks.map fun k => k.data.node_id⟩

/-- A structured generation request.  `PromptBuilder.get_prompt` renders
it from YAML templates (external files, out of engine scope); only the
argument values the engine supplies are modelled. -/
structure Prompt where
  ptype : String
  industry : String
  sector : String := ""
  subsector : String := ""
  end_user : String := ""
  n : Nat := 0
  fidelity : String := ""
deriving Repr, DecidableEq

/-- One observable engine effect: a gateway call or a MongoDB batch
save. -/
inductive Ev where
  | llmCall (p : Prompt)
  | save (docs : List SavedDoc)
deriving Repr, DecidableEq

/-- `f"{name} - ({description})" if description else name` — the
combined name/description context string used in prompts. -/
def parentInputStr (d : NodeData) : String :=
  if d.description ≠ "" then d.name ++ " - (" ++ d.description ++ ")" else d.name

/-! ## Expansion Scheduler (taxonomy mode)

Functional embedding of `HierarchyBuilder`.  Each function takes and
returns a fresh-id counter (for `str(ObjectId())`) and appends to an
event trace.  The generation gateway is a function `llm : Prompt →
String`; `LLMInterface.get_response` turns any transport error into the
empty string, so a failing gateway is `llm = fun _ => ""`. -/

/-- The child nodes `_generate_and_process_children` creates from the
parsed records: fresh id, given type, `processed=False`, no children. -/
def mkChildren (childType : String) : Nat → List PRec → List HTree × Nat
  | g, [] => ([], g)
  | g, r :: rs =>
    let (ts, g2) := mkChildren childType (g + 1) rs
    (.node ⟨g, r.name, r.description, childType, false⟩ [] :: ts, g2)

/-- The `for child_node in child_nodes: if not child_node.processed:
self._process_node(child_node)` loop, with the per-node processor
abstracted as `procChild` (receiving the parent's data for context). -/
def foldChildren (procChild : NodeData → Nat → HTree → HTree × Nat × List Ev)
    (pd : NodeData) : Nat → List HTree → List HTree × Nat × List Ev
  | g, [] => ([], g, [])
  | g, k :: ks =>
    let (k2, g2, evs) :=
      if k.data.processed then (k, g, []) else procChild pd g k
    let (ks2, g3, evs2) := foldChildren procChild pd g2 ks
    (k2 :: ks2, g3, evs ++ evs2)

/-- `HierarchyBuilder._generate_and_process_children`: build the prompt
from the parent's name/description, call the gateway once, parse the
response with `parse_list`, create the child nodes (anytree appends
them to the parent), save the full child batch, mark the parent
processed and save it, then process each new child.  `procChild` stands
for the recursive `_process_node` call on a child and `pp` for the
parent's own `parent` id used when saving it. -/
def genAndProcessChildren (llm : Prompt → String)
    (procChild : NodeData → Nat → HTree → HTree × Nat × List Ev)
    (industry fidelity promptType childType : String)
    (pp : Option Nat) (g : Nat) : HTree → HTree × Nat × List Ev
  | .node d kids =>
    let prompt : Prompt :=
      { ptype := promptType, industry := industry,
        sector := parentInputStr d, fidelity := fidelity }
    let response := llm prompt
    let childrenData := parse_list response
    let (newKids, g2) := mkChildren childType g childrenData
    let childDocs := newKids.map (docOf industry (some d.node_id))
    let d2 := { d with processed := true }
    let parentDoc := docOf industry pp (.node d2 (kids ++ newKids))
    let (procKids, g3, childEvs) := foldChildren procChild d2 g2 newKids
    (.node d2 (kids ++ procKids), g3,
      Ev.llmCall prompt :: Ev.save childDocs :: Ev.save [parentDoc] :: childEvs)

/-- `HierarchyBuilder._process_jobs` for one end-user node: build the
`jtbd_industry` prompt from the sector / sub-sector / end-user context,
call the gateway, parse with `parse_jobs`, create the Job leaves with
`processed=True`, and batch-save them.  (The surrounding `try/except`
only logs; no modelled operation raises.) -/
def processJobs (llm : Prompt → String) (industry : String)
    (sectorD subsectorD : NodeData) (nJobs : Nat) (g : Nat) :
    HTree → HTree × Nat × List Ev
  | .node d kids =>
    let prompt : Prompt :=
      { ptype := "jtbd_industry", industry := industry,
        sector := parentInputStr sectorD,
        subsector := parentInputStr subsectorD,
        end_user := parentInputStr d, n := nJobs }
    let response := llm prompt
    let jobs := parse_jobs response
    let (jobNodes, g2) := mkJobNodes g jobs
    let jobDocs := jobNodes.map (docOf industry (some d.node_id))
    (.node d (kids ++ jobNodes), g2, [Ev.llmCall prompt, Ev.save jobDocs])
where
  /-- Job leaves are created already `processed=True`. -/
  mkJobNodes : Nat → List PRec → List HTree × Nat
    | g, [] => ([], g)
    | g, r :: rs =>
      let (ts, g2) := mkJobNodes (g + 1) rs
      (.node ⟨g, r.name, r.description, "Job", true⟩ [] :: ts, g2)

/-- The per-end-user body of `_generate_and_process_end_user_type`'s
loop: create the end-user node, save it, generate its jobs, mark it
processed and save it again. -/
def processEndUserList (llm : Prompt → String) (industry : String)
    (sectorD subsectorD parentD : NodeData) (nJobs : Nat) :
    Nat → List PRec → List HTree × Nat × List Ev
  | g, [] => ([], g, [])
  | g, r :: rs =>
    let eu : HTree := .node ⟨g, r.name, r.description, "End User", false⟩ []
    let firstSave := Ev.save [docOf industry (some parentD.node_id) eu]
    let (eu2, g2, jobEvs) :=
      processJobs llm industry sectorD subsectorD nJobs (g + 1) eu
    let eu3 := markProcessed eu2
    let secondSave := Ev.save [docOf industry (some parentD.node_id) eu3]
    let (rest, g3, evs) :=
      processEndUserList llm industry sectorD subsectorD parentD nJobs g2 rs
    (eu3 :: rest, g3, firstSave :: jobEvs ++ secondSave :: evs)

/-- `HierarchyBuilder._generate_and_process_end_user_type`: one
provider/customer branch under a sub-sector.  The intermediate
"End Users - ..." node is saved *before* its children here, unlike
`_generate_and_process_children`. -/
def genAndProcessEndUserType (llm : Prompt → String) (industry fidelity : String)
    (promptType parentName userType : String)
    (sectorD subsectorD : NodeData) (nEndUsers nJobs : Nat)
    (g : Nat) : HTree × Nat × List Ev :=
  let prompt : Prompt :=
    { ptype := promptType, industry := industry,
      sector := parentInputStr sectorD, subsector := parentInputStr subsectorD,
      n := nEndUsers, fidelity := fidelity }
  let response := llm prompt
  let endUsers := parse_roles response
  let parentData : NodeData :=
    ⟨g, parentName, "End Users who are " ++ userType.toLower ++ "s.",
      parentName, false⟩
  let firstSave := Ev.save [docOf industry (some subsectorD.node_id) (.node parentData [])]
  let (euNodes, g2, euEvs) :=
    processEndUserList llm industry sectorD subsectorD parentData nJobs (g + 1) endUsers
  let done : HTree := .node { parentData with processed := true } euNodes
  let lastSave := Ev.save [docOf industry (some subsectorD.node_id) done]
  (done, g2, Ev.llmCall prompt :: firstSave :: euEvs ++ [lastSave])

/-- `HierarchyBuilder._process_end_users`: the provider branch followed
by the customer branch, both appended under the sub-sector node.
`sectorD` is the sub-sector's parent (`node.parent` in the source). -/
def processEndUsers (llm : Prompt → String) (industry fidelity : String)
    (sectorD : NodeData) (nEndUsers nJobs : Nat) (g : Nat) :
    HTree → HTree × Nat × List Ev
  | .node d kids =>
    let (prov, g2, evs1) :=
      genAndProcessEndUserType llm industry fidelity "end_users_provider"
        "End Users - Providers" "Provider" sectorD d nEndUsers nJobs g
    let (cust, g3, evs2) :=
      genAndProcessEndUserType llm industry fidelity "end_users_customer"
        "End Users - Customers" "Customer" sectorD d nEndUsers nJobs g2
    (.node d (kids ++ [prov, cust]), g3, evs1 ++ evs2)

/-- The `Sub-sector` arm of `_process_node`: run `_process_end_users`,
mark the node processed, save it.  `pd` is the node's parent (a Sector
node), needed for the prompt context and the saved `parent_id`. -/
def processSubsector (llm : Prompt → String) (industry fidelity : String)
    (nEndUsers nJobs : Nat) (pd : NodeData) (g : Nat) (t : HTree) :
    HTree × Nat × List Ev :=
  let (t2, g2, evs) := processEndUsers llm industry fidelity pd nEndUsers nJobs g t
  let t3 := markProcessed t2
  (t3, g2, evs ++ [Ev.save [docOf industry (some pd.node_id) t3]])

/-- The `Sector` arm of `_process_node`: generate `Sub-sector` children
with the `subsectors` prompt and recurse into each. -/
def processSector (llm : Prompt → String) (industry fidelity : String)
    (nEndUsers nJobs : Nat) (pd : NodeData) (g : Nat) (t : HTree) :
    HTree × Nat × List Ev :=
  genAndProcessChildren llm
    (processSubsector llm industry fidelity nEndUsers nJobs)
    industry fidelity "subsectors" "Sub-sector" (some pd.node_id) g t

/-- The `Industry` arm of `_process_node`: generate `Sector` children
with the `sectors` prompt and recurse into each. -/
def processIndustry (llm : Prompt → String) (industry fidelity : String)
    (nEndUsers nJobs : Nat) (pp : Option Nat) (g : Nat) (t : HTree) :
    HTree × Nat × List Ev :=
  genAndProcessChildren llm
    (processSector llm industry fidelity nEndUsers nJobs)
    industry fidelity "sectors" "Sector" pp g t

/-- `HierarchyBuilder._process_node`: dispatch on the node's `type`
attribute; any other type falls through with no action (the method has
no `else` arm).  `parentD` is the node's parent data when it has one (a
`Sub-sector` node always does in real runs). -/
def processNodeDispatch (llm : Prompt → String) (industry fidelity : String)
    (nEndUsers nJobs : Nat) (parentD : Option NodeData) (g : Nat) (t : HTree) :
    HTree × Nat × List Ev :=
  if t.data.tpe = "Industry" then
    processIndustry llm industry fidelity nEndUsers nJobs
      (parentD.map (·.node_id)) g t
  else if t.data.tpe = "Sector" then
    match parentD with
    | some pd => processSector llm industry fidelity nEndUsers nJobs pd g t
    | none => (t, g, [])
  else if t.data.tpe = "Sub-sector" then
    match parentD with
    | some pd => processSubsector llm industry fidelity nEndUsers nJobs pd g t
    | none => (t, g, [])
  else (t, g, [])

/-! ## Resume Controller

`build_hierarchy` checks MongoDB for a saved root and, when one exists,
rebuilds the tree (`_resume_from_saved_state`) and computes the frontier
`[node for node in PreOrderIter(self.root) if not node.processed]`.
Nodes are addressed by their path of child indices; anytree only ever
appends children, so the paths computed for the frontier stay valid
while the tree grows. -/

mutual
/-- All node data in preorder (`PreOrderIter`). -/
def preorderData : HTree → List NodeData
  | .node d kids => d :: preorderDataL kids

/-- Preorder traversal of a forest, left to right. -/
def preorderDataL : List HTree → List NodeData
  | [] => []
  | t :: ts => preorderData t ++ preorderDataL ts
end

mutual
/-- All node paths (child-index lists) in preorder. -/
def preorderPaths : HTree → List (List Nat)
  | .node _ kids => [] :: preorderPathsL 0 kids

/-- Paths into a forest whose members sit at indices `i, i+1, ...`. -/
def preorderPathsL : Nat → List HTree → List (List Nat)
  | _, [] => []
  | i, t :: ts => (preorderPaths t).map (i :: ·) ++ preorderPathsL (i + 1) ts
end

/-- The subtree at a path, if the path is valid. -/
def subtreeAt : HTree → List Nat → Option HTree
  | t, [] => some t
  | .node _ kids, i :: p =>
    match kids.get? i with
    | some k => subtreeAt k p
    | none => none

/-- Replace the subtree at a path (identity on invalid paths). -/
def updateAt : HTree → List Nat → HTree → HTree
  | _, [], t' => t'
  | .node d kids, i :: p, t' =>
    .node d (kids.enum.map fun ik => if ik.1 = i then updateAt ik.2 p t' else ik.2)

/-- `not node.processed` for the node addressed by a path; invalid
paths (which the frontier never produces) count as processed. -/
def unprocessedAt (t : HTree) (p : List Nat) : Bool :=
  match subtreeAt t p with
  | some st => !st.data.processed
  | none => false

/-- The parent data of the node at a path (`node.parent`). -/
def parentDataAt (t : HTree) (p : List Nat) : Option NodeData :=
  match p with
  | [] => none
  | _ => (subtreeAt t p.dropLast).map (·.data)

/-- `HierarchyBuilder.process_hierarchy`: walk the frontier list; each
node still unprocessed when reached is handed to `_process_node`. -/
def processHierarchy (llm : Prompt → String) (industry fidelity : String)
    (nEndUsers nJobs : Nat) : HTree → Nat → List (List Nat) → HTree × Nat × List Ev
  | t, g, [] => (t, g, [])
  | t, g, p :: rest =>
    match subtreeAt t p with
    | none => processHierarchy llm industry fidelity nEndUsers nJobs t g rest
    | some n =>
      if n.data.processed then
        processHierarchy llm industry fidelity nEndUsers nJobs t g rest
      else
        let (n2, g2, evs) :=
          processNodeDispatch llm industry fidelity nEndUsers nJobs
            (parentDataAt t p) g n
        let t2 := updateAt t p n2
        let (t3, g3, evs2) :=
          processHierarchy llm industry fidelity nEndUsers nJobs t2 g2 rest
        (t3, g3, evs ++ evs2)

/-- The resume block of `HierarchyBuilder.build_hierarchy` (a saved
root was found and the tree was rebuilt from MongoDB): compute the
unprocessed frontier in preorder; when it is empty return the root at
once, otherwise continue with `process_hierarchy`. -/
def buildHierarchyResume (llm : Prompt → String) (industry fidelity : String)
    (nEndUsers nJobs : Nat) (t : HTree) (g : Nat) : HTree × Nat × List Ev :=
  let unprocessed := (preorderPaths t).filter (unprocessedAt t)
  if unprocessed.isEmpty then (t, g, [])
  else processHierarchy llm industry fidelity nEndUsers nJobs t g unprocessed

/-- `complete=true` (here: `processed`) on every node of the tree. -/
def allProcessed (t : HTree) : Bool :=
  (preorderData t).all (·.processed)

/-! ## Pipeline mode

`console_app.process_steps` and the inner `process_steps` of
`app.process_job` walk a statically nested step list under an anchor
node.  The downstream processor is abstracted as a table `dp` from
method name to an optional handler (`getattr(downstream_processor,
method_name, None)`); a handler receives the step's `n` and the current
node and appends new children to it (the constant `fidelity`/`temp`
arguments do not influence control flow and are omitted). -/

/-- One entry of the declarative step specification:
`{'step': ..., 'n': ..., 'children_steps': [...]?}`. -/
inductive Step where
  | mk (step : String) (n : Nat) (children_steps : Option (List Step))
deriving Repr

def Step.step : Step → String
  | .mk s _ _ => s

def Step.n : Step → Nat
  | .mk _ n _ => n

def Step.children_steps : Step → Option (List Step)
  | .mk _ _ cs => cs

/-- `method_mapping.STEP_NAME_TO_METHOD`. -/
def STEP_NAME_TO_METHOD : List (String × String) :=
  [("Desired Outcomes (success metrics)", "process_desired_outcomes"),
   ("Themed Desired Outcomes (Themed Success Metrics)", "process_themed_desired_outcomes"),
   ("Situational and Complexity Factors", "process_situational_complexity_factors"),
   ("Financial Metrics of Purchasing Decision Makers", "process_financial_metrics"),
   ("Potential Root Causes Preventing the Ideal State", "process_potential_root_causes")]

/-- The dynamic method-name construction
`f"process_{step_name.lower().replace(' ', '_').replace('(', '').replace(')', '')}"`. -/
def pyMethodName (stepName : String) : String :=
  "process_" ++ String.mk
    (((stepName.data.map Char.toLower).map fun c => if c = ' ' then '_' else c).filter
      fun c => !(c = '(' || c = ')'))

/-- `console_app.process_steps` method resolution: the explicit mapping
is consulted first, otherwise the name is constructed dynamically. -/
def consoleMethodName (stepName : String) : String :=
  match STEP_NAME_TO_METHOD.lookup stepName with
  | some m => m
  | none => pyMethodName stepName

/-- Append handler-produced children to the current node (each
`Node(..., parent=current_node)` appends in order). -/
def appendKids : HTree → List HTree → HTree
  | .node d ks, new => .node d (ks ++ new)

/-- `current_node.children[-1]`. -/
def lastChildD (t : HTree) : HTree :=
  t.children.getLastD (.node ⟨0, "", "", "", false⟩ [])

/-- Write back the mutated last child (the recursion into
`children[-1]` mutates that shared node in place). -/
def replaceLastChild : HTree → HTree → HTree
  | .node d ks, c => .node d (ks.dropLast ++ [c])

/-- A downstream-processor table: `getattr(dp, name, None)`. -/
def DPTable : Type := String → Option (Nat → HTree → List HTree)

/-- `console_app.process_steps`: for each step resolve the method name
(mapping first, dynamic fallback); a missing method logs and skips the
step; a handler that adds no child logs and skips the nested steps;
otherwise the nested steps recurse into `children[-1]`; finally the
anchor itself is marked processed. -/
def processStepsConsole (dp : DPTable) : HTree → List Step → HTree
  | t, [] => markProcessed t
  | t, Step.mk nm n csOpt :: rest =>
    match dp (consoleMethodName nm) with
    | none => processStepsConsole dp t rest
    | some h =>
      let initialCount := t.children.length
      let t2 := appendKids t (h n t)
      if initialCount < t2.children.length then
        match csOpt with
        | some cs =>
          let nc2 := processStepsConsole dp (lastChildD t2) cs
          processStepsConsole dp (replaceLastChild t2 nc2) rest
        | none => processStepsConsole dp t2 rest
      else processStepsConsole dp t rest
termination_by _t steps => sizeOf steps

/-- The inner `process_steps` of `app.process_job`: method names are
always constructed dynamically, each step's new child (`children[-1]`)
is marked processed after its nested steps, and the anchor itself is
left to the caller. -/
def processStepsApp (dp : DPTable) : HTree → List Step → HTree
  | t, [] => t
  | t, Step.mk nm n csOpt :: rest =>
    match dp (pyMethodName nm) with
    | none => processStepsApp dp t rest
    | some h =>
      let initialCount := t.children.length
      let t2 := appendKids t (h n t)
      if initialCount < t2.children.length then
        let nc2 :=
          match csOpt with
          | some cs => processStepsApp dp (lastChildD t2) cs
          | none => lastChildD t2
        processStepsApp dp (replaceLastChild t2 (markProcessed nc2)) rest
      else processStepsApp dp t rest
termination_by _t steps => sizeOf steps

mutual
/-- Every step identifier occurring in a step tree. -/
def stepNames : Step → List String
  | .mk nm _ none => [nm]
  | .mk nm _ (some cs) => nm :: stepNamesL cs

def stepNamesL : List Step → List String
  | [] => []
  | s :: ss => stepNames s ++ stepNamesL ss
end

/-- The declared step tree of `console_app.process_node` /
`app.process_job`. -/
def declaredSteps : List Step :=
  [.mk "Job Contexts" 10 (some
    [.mk "Job Map" 0 (some
      [.mk "Desired Outcomes (success metrics)" 20 none,
       .mk "Themed Desired Outcomes (Themed Success Metrics)" 10 none]),
     .mk "Situational Complexity Factors" 10 none,
     .mk "Related Jobs" 10 none,
     .mk "Emotional Jobs" 10 none,
     .mk "Social Jobs" 10 none,
     .mk "Financial Metrics of Purchasing Decision Makers" 10 none,
     .mk "Ideal Job State" 15 (some
       [.mk "Potential Root Causes Preventing the Ideal State" 15 none])])]

/-! ## `build_hierarchy_from_nodes` (method_mapping.py)

Reconstructs a tree from flat MongoDB documents: a lookup table keyed
by `node_id` (Python dict: first-occurrence order, later duplicates
overwrite in place), parent links assigned via anytree (whose parent
setter raises `LoopError` when the assignment would make a node an
ancestor of itself), then the root is identified as the unique
parentless node. -/

/-- A flat stored node document as fetched from MongoDB. -/
structure MNodeDoc where
  node_id : String
  name : String
  description : String
  tpe : String
  parent_id : Option String
deriving Repr, DecidableEq

/-- Python dict insertion: overwrite in place on duplicate key. -/
def pyDictInsert (k : String) (v : MNodeDoc) :
    List (String × MNodeDoc) → List (String × MNodeDoc)
  | [] => [(k, v)]
  | (k', v') :: rest =>
    if k' = k then (k', v) :: rest else (k', v') :: pyDictInsert k v rest

/-- `{node['node_id']: node for node in nodes}`. -/
def pyDict (nodes : List MNodeDoc) : List (String × MNodeDoc) :=
  nodes.foldl (fun d n => pyDictInsert n.node_id n d) []

/-- How `build_hierarchy_from_nodes` can fail: anytree's `LoopError`
while linking, or the two explicit `ValueError`s. -/
inductive BuildErr where
  | loopError (nodeId parentId : String)
  | noRoot
  | multipleRoots
deriving Repr, DecidableEq

/-- `node :: ancestors(node)` under the assignments made so far;
`fuel` bounds the (acyclic) walk. -/
def pathUp (pmap : List (String × String)) : Nat → String → List String
  | 0, x => [x]
  | fuel + 1, x =>
    x :: (match pmap.lookup x with
          | some p => pathUp pmap fuel p
          | none => [])

/-- The parent-assignment loop: for each entry in dict order, a truthy
`parent_id` found in the lookup is linked; anytree raises `LoopError`
when the child is the parent or one of the parent's ancestors; a
dangling `parent_id` only prints a warning. -/
def assignParents (lookup : List (String × MNodeDoc)) :
    List (String × MNodeDoc) → List (String × String) →
    Except BuildErr (List (String × String))
  | [], pmap => .ok pmap
  | (id, data) :: rest, pmap =>
    match data.parent_id with
    | none => assignParents lookup rest pmap
    | some pid =>
      if pid = "" then assignParents lookup rest pmap
      else if (lookup.lookup pid).isSome then
        if id ∈ pathUp pmap (pmap.length + 1) pid then
          .error (.loopError id pid)
        else assignParents lookup rest (pmap ++ [(id, pid)])
      else assignParents lookup rest pmap

/-- The parentless entries of the lookup table under the assigned
parent links, in table order (`[node for node in anytree_lookup.values()
if node.is_root]`). -/
def rootEntries (lookup : List (String × MNodeDoc)) (pmap : List (String × String)) :
    List String :=
  lookup.filterMap fun kv => if (pmap.lookup kv.1).isNone then some kv.1 else none

/-- `build_hierarchy_from_nodes`: on success returns the unique root's
id together with the assigned parent links. -/
def build_hierarchy_from_nodes (nodes : List MNodeDoc) :
    Except BuildErr (String × List (String × String)) :=
  match assignParents (pyDict nodes) (pyDict nodes) [] with
  | .error e => .error e
  | .ok pmap =>
    match rootEntries (pyDict nodes) pmap with
    | [] => .error .noRoot
    | [r] => .ok (r, pmap)
    | _ :: _ :: _ => .error .multipleRoots

/-! ## Theorems -/

/-- C7: on the two-line example input, the taxonomy-mode parser
`parse_list` returns exactly the ordered records
`[(Banking, Deals with deposits.), (Investment, Manages assets.)]`. -/
theorem C7_parse_list_example :
    parse_list "1. **Banking**: Deals with deposits.\n2. **Investment**: Manages assets."
      = [⟨"Banking", "Deals with deposits."⟩, ⟨"Investment", "Manages assets."⟩] := by
  decide

/-- C8 counterexample: `_parse_list_response` does not try a bold-name +
colon convention, so a batch whose lines all use bold-name + colon is
dropped entirely — contradicting the claimed priority order
(bold+dash, bold+colon, plain+dash) under which this batch would parse. -/
theorem C8_counterexample :
    parseListResponse "1. **Banking**: Deals with deposits.\n2. **Investment**: Manages assets."
      = [] := by
  decide

/-- C8 (amended): `_parse_list_response` tries exactly two separator
conventions per line in fixed priority order — bold-name + dash first,
then plain-name + dash — accepting each line under the first convention
that matches, so a batch whose lines use either of these two styles is
parsed into records; bold-name + colon is not among its conventions
(taxonomy-mode `parse_list` handles that style instead). -/
theorem C8_two_conventions_in_priority_order :
    (∀ line p, pyStrip line ≠ [] → matchBoldDash line = some p →
      parseLineResponse line = some ⟨String.mk (pyStrip p.1), String.mk (pyStrip p.2)⟩) ∧
    (∀ line p, matchBoldDash line = none → matchPlainDash line = some p →
      pyStrip line ≠ [] →
      parseLineResponse line = some ⟨String.mk (pyStrip p.1), String.mk (pyStrip p.2)⟩) ∧
    parseListResponse "1. **Banking** - Deals with deposits.\n2. **Investment** - Manages assets."
      = [⟨"Banking", "Deals with deposits."⟩, ⟨"Investment", "Manages assets."⟩] ∧
    parseListResponse "1. Banking - Deals with deposits.\n2. Investment - Manages assets."
      = [⟨"Banking", "Deals with deposits."⟩, ⟨"Investment", "Manages assets."⟩] := by
  refine ⟨?_, ?_, by decide, by decide⟩
  · intro line p hne hm
    simp [parseLineResponse, hne, hm]
  · intro line p hm1 hm2 hne
    simp [parseLineResponse, hne, hm1, hm2]

/-- C8 witness: both convention branches of the amended theorem applied
at concrete lines. -/
theorem C8_two_conventions_witness :
    parseLineResponse "1. **Banking** - Deals with deposits.".data
      = some ⟨"Banking", "Deals with deposits."⟩ ∧
    parseLineResponse "1. Banking - Deals with deposits.".data
      = some ⟨"Banking", "Deals with deposits."⟩ :=
  ⟨C8_two_conventions_in_priority_order.1 "1. **Banking** - Deals with deposits.".data
      ("Banking".data, "Deals with deposits.".data) (by decide) (by decide),
   C8_two_conventions_in_priority_order.2.1 "1. Banking - Deals with deposits.".data
      ("Banking".data, "Deals with deposits.".data) (by decide) (by decide) (by decide)⟩


/-- C9 counterexample: a single document whose `parent_id` is its own
id.  The linked structure has zero parentless nodes, so by the claim
the function should raise `ValueError`; instead the anytree parent
setter raises `LoopError` during linking, before the root count is ever
examined. -/
theorem C9_counterexample :
    build_hierarchy_from_nodes [⟨"a", "A", "", "", some "a"⟩]
      = .error (.loopError "a" "a") := by
  rfl

/-- C9 (amended): when every parent assignment succeeds,
`build_hierarchy_from_nodes` raises `ValueError` on zero or multiple
parentless nodes and otherwise returns the unique root — it never
returns a forest and never silently picks one root among several; but
on inputs whose parent references form a cycle the anytree parent
setter raises `LoopError` instead of the claimed `ValueError`. -/
theorem C9_unique_root_or_value_error :
    (∀ nodes r pm, build_hierarchy_from_nodes nodes = .ok (r, pm) →
      rootEntries (pyDict nodes) pm = [r]) ∧
    (∀ nodes pm, assignParents (pyDict nodes) (pyDict nodes) [] = .ok pm →
      rootEntries (pyDict nodes) pm = [] →
      build_hierarchy_from_nodes nodes = .error .noRoot) ∧
    (∀ nodes pm, assignParents (pyDict nodes) (pyDict nodes) [] = .ok pm →
      2 ≤ (rootEntries (pyDict nodes) pm).length →
      build_hierarchy_from_nodes nodes = .error .multipleRoots) := by
  refine ⟨?_, ?_, ?_⟩
  · intro nodes r pm h
    unfold build_hierarchy_from_nodes at h
    cases hassign : assignParents (pyDict nodes) (pyDict nodes) [] with
    | error e => rw [hassign] at h; simp at h
    | ok pm' =>
      rw [hassign] at h
      dsimp only at h
      cases hroots : rootEntries (pyDict nodes) pm' with
      | nil => rw [hroots] at h; simp at h
      | cons r0 rest =>
        cases rest with
        | nil =>
          rw [hroots] at h
          simp only [Except.ok.injEq, Prod.mk.injEq] at h
          obtain ⟨hr, hpm⟩ := h
          subst hr; subst hpm
          exact hroots
        | cons r1 rest' => rw [hroots] at h; simp at h
  · intro nodes pm h hroots
    unfold build_hierarchy_from_nodes
    rw [h]
    dsimp only
    rw [hroots]
  · intro nodes pm h hlen
    unfold build_hierarchy_from_nodes
    rw [h]
    dsimp only
    cases hroots : rootEntries (pyDict nodes) pm with
    | nil => rw [hroots] at hlen; simp at hlen
    | cons r0 rest =>
      cases rest with
      | nil => rw [hroots] at hlen; simp at hlen
      | cons r1 rest' => rfl

/-- C9 witness: the amended theorem applied to a two-document tree
(unique root returned), an empty batch (`noRoot`), and a two-root batch
(`multipleRoots`). -/
theorem C9_unique_root_witness :
    rootEntries (pyDict [⟨"a", "A", "", "", none⟩, ⟨"b", "B", "", "", some "a"⟩])
        [("b", "a")] = ["a"] ∧
    build_hierarchy_from_nodes ([] : List MNodeDoc) = .error .noRoot ∧
    build_hierarchy_from_nodes [⟨"a", "A", "", "", none⟩, ⟨"b", "B", "", "", none⟩]
      = .error .multipleRoots :=
  ⟨C9_unique_root_or_value_error.1 [⟨"a", "A", "", "", none⟩, ⟨"b", "B", "", "", some "a"⟩]
      "a" [("b", "a")] (by rfl),
   C9_unique_root_or_value_error.2.1 [] [] (by rfl) (by rfl),
   C9_unique_root_or_value_error.2.2 [⟨"a", "A", "", "", none⟩, ⟨"b", "B", "", "", none⟩]
      [] (by rfl) (by simp [rootEntries, pyDict, pyDictInsert])⟩

theorem docOf_processed (ind : String) (pid : Option Nat) (t : HTree) :
    (docOf ind pid t).processed = t.data.processed := by
  cases t; rfl

theorem docOf_parent_id (ind : String) (pid : Option Nat) (t : HTree) :
    (docOf ind pid t).parent_id = pid := by
  cases t; rfl

theorem mkChildren_processed (ct : String) :
    ∀ (l : List PRec) (g : Nat) (t : HTree), t ∈ (mkChildren ct g l).1 →
      t.data.processed = false := by
  intro l
  induction l with
  | nil => intro g t ht; simp [mkChildren] at ht
  | cons r rs ih =>
    intro g t ht
    simp only [mkChildren] at ht
    rcases List.mem_cons.mp ht with h | h
    · subst h; rfl
    · exact ih (g + 1) t h

/-- C2: in every execution of `_generate_and_process_children`, the
event trace begins with the single gateway call, then the batch save of
the newly created children (each persisted with `processed=False` and
the parent's id), and only after that the save that writes the parent
with `processed=True`; everything later in the trace comes from
processing the children. -/
theorem C2_children_saved_before_parent_complete
    (llm : Prompt → String)
    (procChild : NodeData → Nat → HTree → HTree × Nat × List Ev)
    (industry fidelity ptype ctype : String) (pp : Option Nat) (g : Nat)
    (d : NodeData) (kids : List HTree) :
    ∃ prompt childDocs parentDoc rest,
      (genAndProcessChildren llm procChild industry fidelity ptype ctype pp g
          (.node d kids)).2.2
        = Ev.llmCall prompt :: Ev.save childDocs :: Ev.save [parentDoc] :: rest ∧
      (∀ doc ∈ childDocs, doc.processed = false ∧ doc.parent_id = some d.node_id) ∧
      parentDoc.node_id = d.node_id ∧ parentDoc.processed = true := by
  refine ⟨_, _, _, _, rfl, ?_, rfl, rfl⟩
  intro doc hdoc
  simp only [List.mem_map] at hdoc
  obtain ⟨k, hk, rfl⟩ := hdoc
  refine ⟨?_, docOf_parent_id _ _ _⟩
  rw [docOf_processed]
  exact mkChildren_processed ctype _ g k hk

theorem parse_list_empty : parse_list "" = [] := by decide

/-- C3 counterexample: a failing gateway (`LLMInterface.get_response`
returns `""` on any provider error) during `_generate_and_process_children`
on an unprocessed Sector node.  The claim says the node's
`processed` flag remains `False` so a later run retries it; instead the
empty response parses to zero records and the node is marked
`processed=True` anyway, so it is never retried. -/
theorem C3_counterexample :
    ((genAndProcessChildren (fun _ => "") (fun _ g t => (t, g, []))
        "Finance" "comprehensive" "subsectors" "Sub-sector" (some 0) 5
        (.node ⟨1, "Banking", "Handles deposits.", "Sector", false⟩ [])).1).data.processed
      = true := by
  rfl

/-- C3 (amended): a generation failure (the gateway error surfaces as
an empty-string response) is indeed non-fatal — no exception crosses the
node boundary and the run continues — but the node does *not* stay
incomplete: the empty response parses to zero records, an empty child
batch is saved, and the node itself is persisted with `processed=True`,
so a later run will not retry it. -/
theorem C3_generation_failure_marks_processed
    (llm : Prompt → String)
    (procChild : NodeData → Nat → HTree → HTree × Nat × List Ev)
    (industry fidelity ptype ctype : String) (pp : Option Nat) (g : Nat)
    (d : NodeData) (kids : List HTree)
    (hfail : llm { ptype := ptype, industry := industry,
                   sector := parentInputStr d, fidelity := fidelity } = "") :
    genAndProcessChildren llm procChild industry fidelity ptype ctype pp g
        (.node d kids)
      = (.node { d with processed := true } kids, g,
         [Ev.llmCall { ptype := ptype, industry := industry,
                       sector := parentInputStr d, fidelity := fidelity },
          Ev.save [],
          Ev.save [docOf industry pp (.node { d with processed := true } kids)]]) := by
  simp [genAndProcessChildren, hfail, parse_list_empty, mkChildren, foldChildren]

/-- C3 witness: the amended theorem applied to a concrete Sector node
with the always-failing gateway. -/
theorem C3_generation_failure_witness :
    genAndProcessChildren (fun _ => "") (fun _ g t => (t, g, []))
        "Finance" "comprehensive" "subsectors" "Sub-sector" (some 0) 5
        (.node ⟨1, "Banking", "Handles deposits.", "Sector", false⟩ [])
      = (.node ⟨1, "Banking", "Handles deposits.", "Sector", true⟩ [], 5,
         [Ev.llmCall { ptype := "subsectors", industry := "Finance",
                       sector := parentInputStr ⟨1, "Banking", "Handles deposits.", "Sector", false⟩,
                       fidelity := "comprehensive" },
          Ev.save [],
          Ev.save [docOf "Finance" (some 0)
            (.node ⟨1, "Banking", "Handles deposits.", "Sector", true⟩ [])]]) :=
  C3_generation_failure_marks_processed (fun _ => "") (fun _ g t => (t, g, []))
    "Finance" "comprehensive" "subsectors" "Sub-sector" (some 0) 5
    ⟨1, "Banking", "Handles deposits.", "Sector", false⟩ [] rfl

/-- C6: a step whose identifier resolves to no processing method on the
downstream processor is skipped — `console_app.process_steps` continues
with the remaining sibling steps under the same anchor exactly as if
the entry were absent, and (being a total function of the embedding) no
exception aborts traversal. -/
theorem C6_missing_method_skips_step (dp : DPTable) (t : HTree)
    (nm : String) (n : Nat) (csOpt : Option (List Step)) (rest : List Step)
    (h : dp (consoleMethodName nm) = none) :
    processStepsConsole dp t (Step.mk nm n csOpt :: rest)
      = processStepsConsole dp t rest := by
  rw [processStepsConsole]
  simp [h]

/-- C6 witness: the empty downstream processor skips a concrete step. -/
theorem C6_missing_method_witness :
    processStepsConsole (fun _ => none)
        (.node ⟨0, "Job", "", "", false⟩ [])
        [Step.mk "Related Jobs" 10 none]
      = processStepsConsole (fun _ => none)
          (.node ⟨0, "Job", "", "", false⟩ []) [] :=
  C6_missing_method_skips_step (fun _ => none)
    (.node ⟨0, "Job", "", "", false⟩ []) "Related Jobs" 10 none [] rfl

/-- C10: `console_app.process_steps` marks the anchor processed after
iterating the step list no matter what happened inside the loop; in
particular, with a downstream processor that has none of the methods,
the anchor is returned unchanged except for `processed=True` — it gains
zero children yet ends marked processed. -/
theorem C10_anchor_always_marked_processed :
    (∀ (dp : DPTable) (t : HTree) (steps : List Step),
      (processStepsConsole dp t steps).data.processed = true) ∧
    (∀ (t : HTree) (steps : List Step),
      processStepsConsole (fun _ => none) t steps = markProcessed t) := by
  constructor
  · intro dp t steps
    induction steps generalizing t with
    | nil =>
      rw [processStepsConsole]
      cases t; rfl
    | cons s rest ih =>
      obtain ⟨nm, n, csOpt⟩ := s
      rw [processStepsConsole]
      cases hdp : dp (consoleMethodName nm) with
      | none => exact ih t
      | some h =>
        dsimp only
        split
        · cases csOpt with
          | none => exact ih _
          | some cs => exact ih _
        · exact ih t
  · intro t steps
    induction steps generalizing t with
    | nil => rw [processStepsConsole]
    | cons s rest ih =>
      obtain ⟨nm, n, csOpt⟩ := s
      rw [processStepsConsole]
      exact ih t

theorem processStepsApp_nil (dp : DPTable) (t : HTree) :
    processStepsApp dp t [] = t := by
  rw [processStepsApp]

/-- Unfolding lemma for one pipeline step whose handler exists and adds
at least one child: the nested steps run against `children[-1]` of the
updated anchor, that child is then marked processed and written back,
and traversal continues with the remaining steps. -/
theorem processStepsApp_cons_grow (dp : DPTable) (t : HTree) (nm : String) (n : Nat)
    (csOpt : Option (List Step)) (rest : List Step)
    (hh : Nat → HTree → List HTree)
    (hdp : dp (pyMethodName nm) = some hh)
    (hgrow : t.children.length < (appendKids t (hh n t)).children.length) :
    processStepsApp dp t (Step.mk nm n csOpt :: rest)
      = processStepsApp dp
          (replaceLastChild (appendKids t (hh n t))
            (markProcessed
              (match csOpt with
               | some cs => processStepsApp dp (lastChildD (appendKids t (hh n t))) cs
               | none => lastChildD (appendKids t (hh n t)))))
          rest := by
  rw [processStepsApp]
  simp [hdp, hgrow]

/-- Handler producing two children, installed as `process_step_one`. -/
def hStepOne : Nat → HTree → List HTree := fun _ _ =>
  [.node ⟨100, "First", "", "", false⟩ [], .node ⟨101, "Second", "", "", false⟩ []]

/-- Handler producing one child, installed as `process_step_two`. -/
def hStepTwo : Nat → HTree → List HTree := fun _ _ =>
  [.node ⟨200, "Artifact", "", "", false⟩ []]

/-- A downstream-processor table with exactly the two handlers above. -/
def dpC4 : DPTable := fun name =>
  if name = "process_step_one" then some hStepOne
  else if name = "process_step_two" then some hStepTwo
  else none

/-- A childless pipeline anchor. -/
def anchorC4 : HTree := .node ⟨0, "High Level Job", "", "", false⟩ []

/-- C4 counterexample: a step whose handler adds two children (ids 100
and 101, at indices k = 0 and 1 of the updated children) and whose
nested step adds one grandchild (id 200).  By the claim the recursion
anchor is the first newly created child (index k = 0, id 100); instead
the grandchild ends up under the *last* child (id 101), because the
code recurses into `children[-1]`. -/
theorem C4_counterexample :
    ((processStepsApp dpC4 anchorC4
        [Step.mk "Step One" 1 (some [Step.mk "Step Two" 1 none])]).children.map
      fun c => (c.data.node_id, c.children.map fun k => k.data.node_id))
      = [(100, []), (101, [200])] := by
  rw [processStepsApp_cons_grow dpC4 anchorC4 "Step One" 1
      (some [Step.mk "Step Two" 1 none]) [] hStepOne rfl (by decide)]
  dsimp only
  rw [processStepsApp_cons_grow dpC4 _ "Step Two" 1 none [] hStepTwo rfl (by decide)]
  dsimp only
  simp only [processStepsApp_nil]
  rfl

/-- C4 (amended): in pipeline mode, when a step's processing adds at
least one new child, the recursion into that step's `childSteps` uses
the *last* element of the updated children sequence (`children[-1]`,
the most recently appended child) as the new anchor — which coincides
with the first newly created child only when exactly one child was
added. -/
theorem C4_recursion_anchor_is_last_child (dp : DPTable) (t : HTree)
    (nm : String) (n : Nat) (cs rest : List Step)
    (hh : Nat → HTree → List HTree)
    (hdp : dp (pyMethodName nm) = some hh)
    (hgrow : t.children.length < (appendKids t (hh n t)).children.length) :
    processStepsApp dp t (Step.mk nm n (some cs) :: rest)
      = processStepsApp dp
          (replaceLastChild (appendKids t (hh n t))
            (markProcessed (processStepsApp dp (lastChildD (appendKids t (hh n t))) cs)))
          rest :=
  processStepsApp_cons_grow dp t nm n (some cs) rest hh hdp hgrow

/-- C4 witness: the amended theorem applied to the concrete
two-children scenario. -/
theorem C4_recursion_anchor_witness :
    processStepsApp dpC4 anchorC4
        [Step.mk "Step One" 1 (some [Step.mk "Step Two" 1 none])]
      = processStepsApp dpC4
          (replaceLastChild (appendKids anchorC4 (hStepOne 1 anchorC4))
            (markProcessed
              (processStepsApp dpC4 (lastChildD (appendKids anchorC4 (hStepOne 1 anchorC4)))
                [Step.mk "Step Two" 1 none])))
          [] :=
  C4_recursion_anchor_is_last_child dpC4 anchorC4 "Step One" 1
    [Step.mk "Step Two" 1 none] [] hStepOne rfl (by decide)

/-- C5 counterexample: `STEP_NAME_TO_METHOD` is not complete against
the declared step tree — `Job Contexts` is a declared step identifier
with no entry — so its handler can only be found by deriving the method
name from the step-name string at runtime. -/
theorem C5_counterexample :
    "Job Contexts" ∈ stepNamesL declaredSteps ∧
      STEP_NAME_TO_METHOD.lookup "Job Contexts" = none := by
  decide

/-- C5 (amended): the step-to-method mapping covers only part of the
declared step tree; for any identifier outside the mapping,
`console_app.process_steps` derives the handler name at runtime from
the step-name string (lower-case, spaces to underscores, parentheses
dropped), and `app.py`'s variant always derives it; a missing handler
is a runtime log-and-skip, not a startup validation failure. -/
theorem C5_runtime_name_derivation :
    (∃ nm, nm ∈ stepNamesL declaredSteps ∧ STEP_NAME_TO_METHOD.lookup nm = none) ∧
    (∀ nm, STEP_NAME_TO_METHOD.lookup nm = none →
      consoleMethodName nm = pyMethodName nm) ∧
    consoleMethodName "Job Contexts" = "process_job_contexts" := by
  refine ⟨⟨"Job Contexts", by decide, by decide⟩, ?_, by decide⟩
  intro nm h
  simp [consoleMethodName, h]

/-- C5 witness: the runtime derivation branch applied to a concrete
unmapped step identifier. -/
theorem C5_runtime_name_witness :
    consoleMethodName "Emotional Jobs" = pyMethodName "Emotional Jobs" :=
  C5_runtime_name_derivation.2.1 "Emotional Jobs" (by decide)

/-- Strong induction for `HTree`: prove a property of a node from the
property at each child. -/
theorem HTree.strongInd {motive : HTree → Prop}
    (h : ∀ d kids, (∀ k ∈ kids, motive k) → motive (.node d kids)) :
    ∀ t, motive t
  | .node d kids => h d kids (fun k _hk => HTree.strongInd h k)
termination_by t => sizeOf t
decreasing_by
  have := List.sizeOf_lt_of_mem _hk
  simp only [HTree.node.sizeOf_spec]
  omega

theorem mem_preorderPathsL :
    ∀ (ts : List HTree) (i : Nat) (p : List Nat), p ∈ preorderPathsL i ts →
      ∃ j q k, ts.get? j = some k ∧ p = (i + j) :: q ∧ q ∈ preorderPaths k := by
  intro ts
  induction ts with
  | nil => intro i p hp; simp [preorderPathsL] at hp
  | cons t ts ih =>
    intro i p hp
    rw [preorderPathsL] at hp
    rcases List.mem_append.mp hp with h | h
    · obtain ⟨q, hq, rfl⟩ := List.mem_map.mp h
      exact ⟨0, q, t, rfl, by simp, hq⟩
    · obtain ⟨j, q, k, hget, rfl, hqk⟩ := ih (i + 1) _ h
      refine ⟨j + 1, q, k, hget, ?_, hqk⟩
      have : i + 1 + j = i + (j + 1) := by omega
      rw [this]

theorem mem_preorderDataL :
    ∀ (ts : List HTree) (k : HTree), k ∈ ts →
      ∀ x ∈ preorderData k, x ∈ preorderDataL ts := by
  intro ts
  induction ts with
  | nil => intro k hk; exact absurd hk (List.not_mem_nil k)
  | cons t ts ih =>
    intro k hk x hx
    rw [preorderDataL]
    rcases List.mem_cons.mp hk with rfl | hk'
    · exact List.mem_append_left _ hx
    · exact List.mem_append_right _ (ih k hk' x hx)

/-- Every preorder path addresses a subtree whose data occurs in the
preorder data list. -/
theorem subtree_mem_of_path :
    ∀ t : HTree, ∀ p ∈ preorderPaths t,
      ∃ st, subtreeAt t p = some st ∧ st.data ∈ preorderData t := by
  intro t
  induction t using HTree.strongInd with
  | h d kids ih =>
    intro p hp
    rw [preorderPaths] at hp
    rcases List.mem_cons.mp hp with rfl | hmem
    · exact ⟨.node d kids, rfl, by rw [preorderData]; exact List.mem_cons_self _ _⟩
    · obtain ⟨j, q, k, hget, rfl, hq⟩ := mem_preorderPathsL kids 0 _ hmem
      have hkmem : k ∈ kids := List.get?_mem hget
      obtain ⟨st, hsub, hdata⟩ := ih k hkmem q hq
      refine ⟨st, ?_, ?_⟩
      · rw [Nat.zero_add]
        rw [subtreeAt, hget]
        exact hsub
      · rw [preorderData]
        exact List.mem_cons_of_mem _ (mem_preorderDataL kids k hkmem _ hdata)

/-- C1: resuming `build_hierarchy` on a reconstructed tree in which
every node is already `processed=True` computes an empty frontier and
returns immediately: the tree is returned unchanged, the id supply is
untouched, and the event trace is empty — in particular zero
generation-gateway calls are issued. -/
theorem C1_resume_on_complete_tree_is_noop
    (llm : Prompt → String) (industry fidelity : String) (nEndUsers nJobs : Nat)
    (t : HTree) (g : Nat) (hall : allProcessed t = true) :
    buildHierarchyResume llm industry fidelity nEndUsers nJobs t g = (t, g, []) := by
  have hfilter : (preorderPaths t).filter (unprocessedAt t) = [] := by
    rw [List.filter_eq_nil_iff]
    intro p hp
    obtain ⟨st, hsub, hmem⟩ := subtree_mem_of_path t p hp
    have hproc : st.data.processed = true :=
      List.all_eq_true.mp hall _ hmem
    simp [unprocessedAt, hsub, hproc]
  unfold buildHierarchyResume
  simp [hfilter]

/-- A fully processed two-node tree as persisted by a completed run. -/
def treeAllDone : HTree :=
  .node ⟨0, "Finance", "Root node for industry hierarchy", "Industry", true⟩
    [.node ⟨1, "Banking", "Deals with deposits.", "Sector", true⟩ []]

/-- C1 witness: the no-op resume theorem applied to a concrete fully
processed tree. -/
theorem C1_resume_noop_witness :
    buildHierarchyResume (fun _ => "") "Finance" "comprehensive" 10 10 treeAllDone 2
      = (treeAllDone, 2, []) :=
  C1_resume_on_complete_tree_is_noop (fun _ => "") "Finance" "comprehensive" 10 10
    treeAllDone 2 (by simp [allProcessed, treeAllDone, preorderData, preorderDataL])
